import Mathlib

/-!
goping: ICMP Echo codec, checksum, pairing and the probe receive loop

A shallow embedding of `ping/ping.go`.

* A `byte` is a natural number below 256, a `uint16` one below 65536 and a
  `uint32` one below 4294967296; arithmetic that can wrap in Go carries an
  explicit `%`.
* A Go `[]byte` that is only read is a `List Nat`.  The `Data` field of a
  message is an `Option (List Nat)`: `none` is the nil slice, `some l` a
  non-nil slice with elements `l` (`reflect.DeepEqual` tells them apart).
* `error` results are `Except GoError _`.
-/

namespace Ping

/-! ## Constants -/

def ipv4HeaderMinSize : Nat := 20

def ipv4TotalMaxSize : Nat := 65535

def icmpHeaderSize : Nat := 8

def MaxDataSize : Nat := ipv4TotalMaxSize - ipv4HeaderMinSize - icmpHeaderSize

/-! ## Data model -/

/-- The embedded `ICMPEchoHeader` and the `Data` slice of `ICMPEchoMessage`. -/
structure ICMPEchoMessage where
  /-- The field `Type` of the header (`Type` is reserved in Lean). -/
  Type_ : Nat
  Code : Nat
  Checksum : Nat
  Identifier : Nat
  SequenceNumber : Nat
  Data : Option (List Nat)
  deriving DecidableEq, Repr

/-- The errors built with `fmt.Errorf` and `errors.New` in the codec and in `Pair`. -/
inductive GoError where
  | payloadTooLarge (size max : Nat)
  | tooShort (size min : Nat)
  | checksumMismatch (sum : Nat)
  | codeMismatch
  | identifierMismatch
  | sequenceNumberMismatch
  | dataMismatch
  deriving DecidableEq, Repr

/-- Go `len` of a slice: a nil slice has length 0. -/
def len (s : Option (List Nat)) : Nat :=
  match s with
  | none => 0
  | some l => l.length

/-- The bytes of a slice, in order: a nil slice has none. -/
def bytesOf (s : Option (List Nat)) : List Nat :=
  match s with
  | none => []
  | some l => l

/-- A value that fits the Go type `byte`. -/
def IsByte (x : Nat) : Prop := x < 256

/-- A value that fits the Go type `uint16`. -/
def IsUint16 (x : Nat) : Prop := x < 65536

/-- Every field of the message fits its Go type. -/
def WellTyped (e : ICMPEchoMessage) : Prop :=
  IsByte e.Type_ ∧ IsByte e.Code ∧ IsUint16 e.Checksum ∧ IsUint16 e.Identifier ∧
    IsUint16 e.SequenceNumber ∧ ∀ x ∈ bytesOf e.Data, IsByte x

/-- The call `binary.BigEndian.PutUint16(b[off:off+2], v)`: `b[off] = byte(v >> 8)`,
`b[off+1] = byte(v)`. -/
def putUint16 (b : List Nat) (off v : Nat) : List Nat :=
  (b.set off (v / 256 % 256)).set (off + 1) (v % 256)

/-- The call `binary.BigEndian.Uint16(b[off:off+2])`: `uint16(b[off+1]) | uint16(b[off])<<8`
(for bytes the bitwise or of the two halves is their sum). -/
def getUint16 (b : List Nat) (off : Nat) : Nat :=
  (b.getD off 0 * 256 + b.getD (off + 1) 0) % 65536

/-! ## Checksum -/

/-- The loop `for i := 0; i+1 < len(b); i += 2` of `Checksum`, run on the bytes from index
`i` on with accumulator `sum` (a `uint32`). -/
def checksumLoop : List Nat → Nat → Nat
  | hi :: lo :: rest, sum =>
      checksumLoop rest (((sum + hi * 256 % 4294967296) % 4294967296 + lo) % 4294967296)
  | _, sum => sum

/-- The function `Checksum`. -/
def Checksum (b : List Nat) : Nat :=
  let sum := checksumLoop b 0
  let sum :=
    if b.length % 2 ≠ 0 then
      (sum + b.getD (b.length - 1) 0 * 256 % 4294967296) % 4294967296
    else sum
  let overflowDigit := sum / 65536
  let sum := sum % 65536
  let sum := (sum + overflowDigit) % 4294967296
  let sum := 4294967295 - sum
  sum % 65536

/-! ## Codec -/

/-- The function `NewEchoRequest`. -/
def NewEchoRequest (identifier sequenceNumber : Nat) (data : Option (List Nat)) :
    ICMPEchoMessage :=
  { Type_ := 8, Code := 0, Checksum := 0, Identifier := identifier,
    SequenceNumber := sequenceNumber, Data := data }

/-- The loop `for i := range e.Data { b[icmpHeaderSize+i] = e.Data[i] }`. -/
def copyData (b data : List Nat) : List Nat :=
  (List.range data.length).foldl (fun acc i => acc.set (icmpHeaderSize + i) (data.getD i 0)) b

/-- The function `MarshalEcho`. -/
def MarshalEcho (e : ICMPEchoMessage) : Except GoError (List Nat) :=
  if len e.Data > MaxDataSize then
    .error (.payloadTooLarge (len e.Data) MaxDataSize)
  else
    let b := List.replicate (icmpHeaderSize + len e.Data) 0
    let b := b.set 0 e.Type_
    let b := b.set 1 e.Code
    let b := putUint16 b 4 e.Identifier
    let b := putUint16 b 6 e.SequenceNumber
    let b := copyData b (bytesOf e.Data)
    let b := putUint16 b 2 (Checksum b)
    .ok b

/-- The function `icmpType`. -/
def icmpType (b : List Nat) : Except GoError Nat :=
  if b.length < icmpHeaderSize then
    .error (.tooShort b.length icmpHeaderSize)
  else
    .ok (b.getD 0 0)

/-- The function `UnmarshalEcho`. -/
def UnmarshalEcho (b : List Nat) : Except GoError ICMPEchoMessage :=
  if b.length < icmpHeaderSize then
    .error (.tooShort b.length icmpHeaderSize)
  else if Checksum b ≠ 0 then
    .error (.checksumMismatch (Checksum b))
  else
    .ok
      { Type_ := b.getD 0 0
        Code := b.getD 1 0
        Checksum := getUint16 b 2
        Identifier := getUint16 b 4
        SequenceNumber := getUint16 b 6
        Data := if b.length > icmpHeaderSize then some (b.drop icmpHeaderSize) else none }

/-! ## Pairing -/

/-- The call `reflect.DeepEqual` on two `[]byte` values: a nil slice equals only a nil
slice, two non-nil slices are equal when they hold the same bytes. -/
def deepEqual : Option (List Nat) → Option (List Nat) → Bool
  | none, none => true
  | some x, some y => decide (x = y)
  | _, _ => false

/-- The function `Pair`. -/
def Pair (request reply : ICMPEchoMessage) : Except GoError Unit :=
  if request.Code ≠ reply.Code then .error .codeMismatch
  else if request.Identifier ≠ reply.Identifier then .error .identifierMismatch
  else if request.SequenceNumber ≠ reply.SequenceNumber then .error .sequenceNumberMismatch
  else if ¬ deepEqual request.Data reply.Data then .error .dataMismatch
  else .ok ()

/-! ## Probe session -/

/-- An IPv4 address, by value (`net.IP.Equal` compares addresses by value). -/
abbrev IP := Nat

/-- Why `conn.ReadFromIP` failed: the read deadline passed, or anything else. -/
inductive ReadError where
  | deadlineExceeded
  | other
  deriving DecidableEq, Repr

/-- The errors `Do` returns, one per `fmt.Errorf` or `errors.New` in its body; `close` is the
error of `conn.Close` stored by the deferred function. -/
inductive DoError where
  | listenIP
  | marshalEcho (e : GoError)
  | setWriteDeadline
  | writeToIP
  | timeout
  | setReadDeadline
  | readFromIP (cause : ReadError)
  | unreachable (src : IP)
  | close
  deriving DecidableEq, Repr

/-- The calls `Do` makes on the connection, with their arguments. A `time.Time` is an `Int`
(nanoseconds), as is a `time.Duration`, so `time.Now().Add(timeout)` is `now + timeout`. -/
inductive ConnCall where
  | setWriteDeadline (t : Int)
  | writeToIP (b : List Nat) (dst : IP)
  | setReadDeadline (t : Int)
  | readFromIP
  | close
  deriving DecidableEq, Repr

/-- What the outside world does in one iteration of the receive loop of `Do`. `now` is the
`time.Now()` passed to `SetReadDeadline`, `endTime` the `time.Now()` taken after the read,
`recvData` the bytes `recvData[:recvSize]` (at most `ipv4TotalMaxSize` of them). -/
inductive LoopEvent where
  | timeoutFired
  | setReadDeadlineFails (now : Int)
  | readFails (now endTime : Int) (cause : ReadError)
  | received (now endTime : Int) (recvData : List Nat) (recvFrom : IP)
  deriving DecidableEq, Repr

/-- The outside world of one call of `Do`: which socket calls fail, the clock values
`writeNow` (passed to `SetWriteDeadline`) and `start`, and the iterations of the receive
loop. -/
structure DoEnv where
  listenFails : Bool
  writeNow : Int
  setWriteDeadlineFails : Bool
  start : Int
  writeFails : Bool
  events : List LoopEvent
  closeFails : Bool
  deriving DecidableEq, Repr

/-- The results `(rtt, rerr)` of `Do`; `rerr = none` is the nil error. -/
structure DoResult where
  rtt : Int
  rerr : Option DoError
  deriving DecidableEq, Repr

/-- A run of `Do`: the calls made on the connection, in order, and what was returned;
`result = none` when the listed iterations end before the receive loop returns. -/
structure Run where
  calls : List ConnCall
  result : Option DoResult
  deriving DecidableEq, Repr

/-- The run `r` preceded by the calls `cs`. -/
def Run.after (cs : List ConnCall) (r : Run) : Run :=
  { calls := cs ++ r.calls, result := r.result }

/-- The receive loop `for { select { ... } }` of `Do`. -/
def recvLoop (ip4Remote : IP) (timeout : Int) (request : ICMPEchoMessage) (start : Int) :
    List LoopEvent → Run
  | [] => ⟨[], none⟩
  | .timeoutFired :: _ => ⟨[], some ⟨0, some .timeout⟩⟩
  | .setReadDeadlineFails now :: _ =>
      ⟨[.setReadDeadline (now + timeout)], some ⟨0, some .setReadDeadline⟩⟩
  | .readFails now _ cause :: _ =>
      ⟨[.setReadDeadline (now + timeout), .readFromIP], some ⟨0, some (.readFromIP cause)⟩⟩
  | .received now endTime recvData recvFrom :: rest =>
      Run.after [.setReadDeadline (now + timeout), .readFromIP] <|
        match icmpType recvData with
        | .error _ => recvLoop ip4Remote timeout request start rest
        | .ok t =>
            if t = 8 then recvLoop ip4Remote timeout request start rest
            else if t = 0 ∧ recvFrom = ip4Remote then
              match UnmarshalEcho recvData with
              | .error _ => recvLoop ip4Remote timeout request start rest
              | .ok reply =>
                  match Pair request reply with
                  | .error _ => recvLoop ip4Remote timeout request start rest
                  | .ok _ => ⟨[], some ⟨endTime - start, none⟩⟩
            else if t = 3 then ⟨[], some ⟨0, some (.unreachable recvFrom)⟩⟩
            else recvLoop ip4Remote timeout request start rest

/-- The deferred function of `Do`, run when `Do` returns: the connection is closed and an
error of `conn.Close` replaces `rerr`. -/
def deferredClose (closeFails : Bool) (r : Run) : Run :=
  match r.result with
  | none => r
  | some res =>
      { calls := r.calls ++ [.close]
        result := some (if closeFails then { res with rerr := some .close } else res) }

/-- The function `Do`. -/
def Do (env : DoEnv) (ip4Remote : IP) (timeout : Int)
    (identifier sequenceNumber dataSize : Nat) : Run :=
  if env.listenFails then ⟨[], some ⟨0, some .listenIP⟩⟩
  else
    deferredClose env.closeFails <|
      let request := NewEchoRequest identifier sequenceNumber (some (List.replicate dataSize 0))
      match MarshalEcho request with
      | .error e => ⟨[], some ⟨0, some (.marshalEcho e)⟩⟩
      | .ok sendData =>
          if env.setWriteDeadlineFails then
            ⟨[.setWriteDeadline (env.writeNow + timeout)], some ⟨0, some .setWriteDeadline⟩⟩
          else if env.writeFails then
            ⟨[.setWriteDeadline (env.writeNow + timeout), .writeToIP sendData ip4Remote],
              some ⟨0, some .writeToIP⟩⟩
          else
            Run.after [.setWriteDeadline (env.writeNow + timeout), .writeToIP sendData ip4Remote]
              (recvLoop ip4Remote timeout request env.start env.events)

/-! ## The Internet checksum, as the specification words it -/

/-- The big-endian 16-bit words of a buffer, an odd final byte padded with a zero low
byte. -/
def words16 : List Nat → List Nat
  | hi :: lo :: rest => (hi * 256 + lo) :: words16 rest
  | [hi] => [hi * 256]
  | [] => []

/-- Folding of the carries above bit 16 back into the low 16 bits, at most `fuel` times. -/
def foldCarriesFuel : Nat → Nat → Nat
  | 0, s => s
  | fuel + 1, s => if s < 65536 then s else foldCarriesFuel fuel (s % 65536 + s / 65536)

/-- Folding of the carries above bit 16 back into the low 16 bits, repeated until the sum
fits in 16 bits (a fold of a sum that does not fit makes it smaller, so `s` folds are
enough: `foldCarries_unfold`, `foldCarries_lt`). -/
def foldCarries (s : Nat) : Nat := foldCarriesFuel s s

/-- The Internet checksum: the complement of the folded sum of the 16-bit words. -/
def internetChecksum (b : List Nat) : Nat :=
  65535 - foldCarries (words16 b).sum

/-! ## Auxiliary definitions for the statements -/

/-- The eight header bytes `MarshalEcho` lays out before the checksum is written. -/
def headerBytes (e : ICMPEchoMessage) : List Nat :=
  [e.Type_, e.Code, 0, 0, e.Identifier / 256 % 256, e.Identifier % 256,
    e.SequenceNumber / 256 % 256, e.SequenceNumber % 256]

/-- The datagram `recvData` from `recvFrom` is discarded: the loop goes on with the next
iteration, whatever follows. -/
def Discards (ip4Remote : IP) (timeout : Int) (request : ICMPEchoMessage) (start : Int)
    (now endTime : Int) (recvData : List Nat) (recvFrom : IP) : Prop :=
  ∀ rest, recvLoop ip4Remote timeout request start (.received now endTime recvData recvFrom :: rest)
    = Run.after [.setReadDeadline (now + timeout), .readFromIP]
        (recvLoop ip4Remote timeout request start rest)

/-- On the datagram `recvData` from `recvFrom` the loop returns `res`, whatever follows. -/
def Returns (ip4Remote : IP) (timeout : Int) (request : ICMPEchoMessage) (start : Int)
    (now endTime : Int) (recvData : List Nat) (recvFrom : IP) (res : DoResult) : Prop :=
  ∀ rest, recvLoop ip4Remote timeout request start (.received now endTime recvData recvFrom :: rest)
    = ⟨[.setReadDeadline (now + timeout), .readFromIP], some res⟩

/-- The 32-bit sum `Checksum` holds before the fold, started from the accumulator `s`: the
loop over the byte pairs of `l`, then the odd final byte as a high byte. -/
def sumFrom (l : List Nat) (s : Nat) : Nat :=
  if l.length % 2 ≠ 0 then
    (checksumLoop l s + l.getD (l.length - 1) 0 * 256 % 4294967296) % 4294967296
  else checksumLoop l s

/-- The clock value an iteration of the receive loop passes to `SetReadDeadline`, when it
gets that far. -/
def iterationNow : LoopEvent → Option Int
  | .timeoutFired => none
  | .setReadDeadlineFails now => some now
  | .readFails now _ _ => some now
  | .received now _ _ _ => some now

/-- The deadlines passed to `SetReadDeadline` in a list of calls, in order. -/
def readDeadlines : List ConnCall → List Int
  | [] => []
  | .setReadDeadline t :: cs => t :: readDeadlines cs
  | _ :: cs => readDeadlines cs

/-! ## Lemmas on the embedding -/

theorem foldCarriesFuel_of_le (fuel : Nat) : ∀ s, s ≤ fuel →
    foldCarriesFuel fuel s = if s < 65536 then s else foldCarries (s % 65536 + s / 65536) := by
  induction fuel using Nat.strong_induction_on with
  | _ fuel ih =>
    intro s hs
    cases fuel with
    | zero =>
      have : s = 0 := by omega
      subst this
      simp [foldCarriesFuel]
    | succ n =>
      by_cases h : s < 65536
      · simp [foldCarriesFuel, h]
      · simp only [foldCarriesFuel, h, if_false]
        have hlt : s % 65536 + s / 65536 ≤ n := by omega
        have e1 := ih n (Nat.lt_succ_self n) _ hlt
        have e2 : foldCarries (s % 65536 + s / 65536) = _ :=
          ih (s % 65536 + s / 65536) (by omega) _ (Nat.le_refl _)
        rw [e1, e2]

theorem foldCarries_unfold (s : Nat) :
    foldCarries s = if s < 65536 then s else foldCarries (s % 65536 + s / 65536) := by
  unfold foldCarries
  rw [foldCarriesFuel_of_le s s (Nat.le_refl s)]
  rfl

theorem foldCarries_lt (s : Nat) : foldCarries s < 65536 := by
  induction s using Nat.strong_induction_on with
  | _ s ih =>
    rw [foldCarries_unfold]
    by_cases h : s < 65536
    · simp [h]
    · simp only [h, if_false]
      exact ih _ (by omega)

theorem copyData_loop (data : List Nat) : ∀ (front : List Nat),
    (List.range data.length).foldl
        (fun acc i => acc.set (front.length + i) (data.getD i 0))
        (front ++ List.replicate data.length 0) = front ++ data := by
  induction data with
  | nil => intro front; simp
  | cons x xs ih =>
    intro front
    have h := ih (front ++ [x])
    simp only [List.length_append, List.length_singleton, List.append_assoc,
      List.singleton_append] at h
    rw [List.length_cons, List.range_succ_eq_map, List.foldl_cons, List.foldl_map]
    simp only [List.getD_cons_zero, List.getD_cons_succ, Nat.add_zero]
    rw [List.replicate_succ]
    have hset : (front ++ 0 :: List.replicate xs.length 0).set front.length x
        = front ++ x :: List.replicate xs.length 0 := by
      simp
    rw [hset]
    have hfun : (fun acc i => List.set acc (front.length + Nat.succ i) (xs.getD i 0))
        = (fun acc i => List.set acc (front.length + 1 + i) (xs.getD i 0)) := by
      funext acc i
      congr 1
      omega
    rw [hfun]
    exact h

theorem len_eq_length (d : Option (List Nat)) : len d = (bytesOf d).length := by
  cases d <;> rfl

theorem getD_isByte (b : List Nat) (hb : ∀ x ∈ b, IsByte x) (i : Nat) : b.getD i 0 < 256 := by
  by_cases h : i < b.length
  · rw [List.getD_eq_getElem b 0 h]
    exact hb _ (List.getElem_mem h)
  · rw [List.getD_eq_default b 0 (by omega)]
    decide

theorem MarshalEcho_ok (e : ICMPEchoMessage) (h : len e.Data ≤ MaxDataSize) :
    MarshalEcho e = .ok (putUint16 (headerBytes e ++ bytesOf e.Data) 2
      (Checksum (headerBytes e ++ bytesOf e.Data))) := by
  have hbuf : copyData (putUint16 (putUint16 (((List.replicate (icmpHeaderSize + len e.Data) 0).set
      0 e.Type_).set 1 e.Code) 4 e.Identifier) 6 e.SequenceNumber) (bytesOf e.Data)
      = headerBytes e ++ bytesOf e.Data := by
    have hrep : List.replicate (icmpHeaderSize + len e.Data) 0
        = 0 :: 0 :: 0 :: 0 :: 0 :: 0 :: 0 :: 0 :: List.replicate (bytesOf e.Data).length 0 := by
      rw [len_eq_length, Nat.add_comm]
      rfl
    rw [hrep]
    exact copyData_loop (bytesOf e.Data) (headerBytes e)
  unfold MarshalEcho
  rw [if_neg (by omega)]
  simp only [hbuf]

theorem UnmarshalEcho_accepts_iff (b : List Nat) :
    (∃ e, UnmarshalEcho b = .ok e) ↔ 8 ≤ b.length ∧ Checksum b = 0 := by
  unfold UnmarshalEcho
  by_cases hl : b.length < icmpHeaderSize
  · rw [if_pos hl]
    have : ¬ 8 ≤ b.length := Nat.not_le.mpr hl
    simp [this]
  · rw [if_neg hl]
    have hl8 : 8 ≤ b.length := Nat.not_lt.mp hl
    by_cases hc : Checksum b ≠ 0
    · rw [if_pos hc]
      simp [hc]
    · rw [if_neg hc]
      have hc0 : Checksum b = 0 := Classical.not_not.mp hc
      simp [hl8, hc0]

theorem deepEqual_iff (a b : Option (List Nat)) : deepEqual a b = true ↔ a = b := by
  cases a <;> cases b <;> simp [deepEqual]

theorem Pair_ok_iff (request reply : ICMPEchoMessage) :
    Pair request reply = .ok () ↔
      request.Code = reply.Code ∧ request.Identifier = reply.Identifier ∧
      request.SequenceNumber = reply.SequenceNumber ∧ request.Data = reply.Data := by
  unfold Pair
  by_cases h1 : request.Code = reply.Code
  · by_cases h2 : request.Identifier = reply.Identifier
    · by_cases h3 : request.SequenceNumber = reply.SequenceNumber
      · by_cases h4 : request.Data = reply.Data
        · simp [h1, h2, h3, h4, (deepEqual_iff _ _).2 rfl]
        · have h5 : ¬ deepEqual request.Data reply.Data = true :=
            fun h => h4 ((deepEqual_iff _ _).1 h)
          simp [h1, h2, h3, h4, h5]
      · simp [h1, h2, h3]
    · simp [h1, h2]
  · simp [h1]

theorem icmpType_ok (d : List Nat) (h : 8 ≤ d.length) : icmpType d = .ok (d.getD 0 0) := by
  unfold icmpType
  rw [if_neg (show ¬ d.length < icmpHeaderSize from Nat.not_lt.mpr h)]

theorem icmpType_error (d : List Nat) (h : d.length < 8) :
    icmpType d = .error (.tooShort d.length 8) := by
  unfold icmpType
  rw [if_pos (show d.length < icmpHeaderSize from h)]
  rfl

theorem recvLoop_success (ip4Remote : IP) (timeout : Int) (request : ICMPEchoMessage)
    (start rtt : Int) : ∀ events : List LoopEvent,
    (recvLoop ip4Remote timeout request start events).result = some ⟨rtt, none⟩ →
    ∃ now endTime d reply, LoopEvent.received now endTime d ip4Remote ∈ events ∧
      rtt = endTime - start ∧ 8 ≤ d.length ∧ d.getD 0 0 = 0 ∧ Checksum d = 0 ∧
      UnmarshalEcho d = .ok reply ∧ Pair request reply = .ok () := by
  intro events
  induction events with
  | nil => intro h; simp [recvLoop] at h
  | cons ev rest ih =>
    intro h
    have hrest : (recvLoop ip4Remote timeout request start rest).result = some ⟨rtt, none⟩ →
        ∃ now endTime d reply, LoopEvent.received now endTime d ip4Remote ∈ ev :: rest ∧
          rtt = endTime - start ∧ 8 ≤ d.length ∧ d.getD 0 0 = 0 ∧ Checksum d = 0 ∧
          UnmarshalEcho d = .ok reply ∧ Pair request reply = .ok () := by
      intro h2
      obtain ⟨now, endTime, d, reply, hmem, hrest⟩ := ih h2
      exact ⟨now, endTime, d, reply, List.mem_cons_of_mem _ hmem, hrest⟩
    cases ev with
    | timeoutFired => simp [recvLoop] at h
    | setReadDeadlineFails now => simp [recvLoop] at h
    | readFails now endTime cause => simp [recvLoop] at h
    | received now endTime d s =>
      by_cases hl : d.length < 8
      · rw [recvLoop, icmpType_error d hl] at h
        exact hrest h
      · have hl8 : 8 ≤ d.length := Nat.not_lt.mp hl
        rw [recvLoop, icmpType_ok d hl8] at h
        simp only [Run.after] at h
        by_cases h8 : d.getD 0 0 = 8
        · rw [if_pos h8] at h
          exact hrest h
        · rw [if_neg h8] at h
          by_cases h0 : d.getD 0 0 = 0 ∧ s = ip4Remote
          · rw [if_pos h0] at h
            obtain ⟨h0, hs⟩ := h0
            subst hs
            cases hu : UnmarshalEcho d with
            | error err =>
              rw [hu] at h
              exact hrest h
            | ok reply =>
              rw [hu] at h
              dsimp only at h
              cases hp : Pair request reply with
              | error err =>
                rw [hp] at h
                exact hrest h
              | ok u =>
                rw [hp] at h
                simp only [Option.some.injEq, DoResult.mk.injEq, and_true] at h
                have hsum : Checksum d = 0 :=
                  ((UnmarshalEcho_accepts_iff d).1 ⟨reply, hu⟩).2
                exact ⟨now, endTime, d, reply, List.mem_cons_self _ _, h.symm, hl8, h0, hsum,
                  hu, hp⟩
          · rw [if_neg h0] at h
            by_cases h3 : d.getD 0 0 = 3
            · rw [if_pos h3] at h
              simp at h
            · rw [if_neg h3] at h
              exact hrest h

theorem deferredClose_success (closeFails : Bool) (r : Run) (rtt : Int)
    (h : (deferredClose closeFails r).result = some ⟨rtt, none⟩) :
    r.result = some ⟨rtt, none⟩ := by
  unfold deferredClose at h
  cases hr : r.result with
  | none =>
    rw [hr] at h
    dsimp only at h
    rw [hr] at h
    cases h
  | some res =>
    rw [hr] at h
    dsimp only at h
    cases closeFails with
    | true => simp at h
    | false =>
      simp only [Bool.false_eq_true, if_false, Option.some.injEq] at h
      rw [h]

theorem Do_success (env : DoEnv) (ip4Remote : IP) (timeout : Int)
    (identifier sequenceNumber dataSize : Nat) (rtt : Int)
    (h : (Do env ip4Remote timeout identifier sequenceNumber dataSize).result
      = some ⟨rtt, none⟩) :
    (recvLoop ip4Remote timeout
      (NewEchoRequest identifier sequenceNumber (some (List.replicate dataSize 0)))
      env.start env.events).result = some ⟨rtt, none⟩ := by
  unfold Do at h
  cases hlisten : env.listenFails with
  | true =>
    rw [hlisten] at h
    simp at h
  | false =>
    rw [hlisten] at h
    simp only [Bool.false_eq_true, if_false] at h
    have h2 := deferredClose_success _ _ _ h
    cases hm : MarshalEcho
        (NewEchoRequest identifier sequenceNumber (some (List.replicate dataSize 0))) with
    | error err =>
      rw [hm] at h2
      simp at h2
    | ok sendData =>
      rw [hm] at h2
      dsimp only at h2
      cases hw : env.setWriteDeadlineFails with
      | true =>
        rw [hw] at h2
        simp at h2
      | false =>
        rw [hw] at h2
        cases hwr : env.writeFails with
        | true =>
          rw [hwr] at h2
          simp at h2
        | false =>
          rw [hwr] at h2
          simpa [Run.after] using h2

theorem Checksum_eq_sumFrom (b : List Nat) :
    Checksum b = (4294967295 - (sumFrom b 0 % 65536 + sumFrom b 0 / 65536) % 4294967296)
      % 65536 := by
  unfold Checksum sumFrom
  rfl

theorem sumFrom_nil (s : Nat) : sumFrom [] s = s := by
  simp [sumFrom, checksumLoop]

theorem sumFrom_single (x s : Nat) :
    sumFrom [x] s = (s + x * 256 % 4294967296) % 4294967296 := by
  simp [sumFrom, checksumLoop]

theorem sumFrom_pair (hi lo : Nat) (rest : List Nat) (s : Nat) :
    sumFrom (hi :: lo :: rest) s
      = sumFrom rest (((s + hi * 256 % 4294967296) % 4294967296 + lo) % 4294967296) := by
  unfold sumFrom
  have hlen : (hi :: lo :: rest).length % 2 = rest.length % 2 := by
    simp only [List.length_cons]
    omega
  rw [hlen]
  by_cases hodd : rest.length % 2 ≠ 0
  · rw [if_pos hodd, if_pos hodd]
    have hpos : 0 < rest.length := by omega
    have hidx : (hi :: lo :: rest).length - 1 = (rest.length - 1) + 1 + 1 := by
      simp only [List.length_cons]
      omega
    rw [hidx, List.getD_cons_succ, List.getD_cons_succ]
    rfl
  · rw [if_neg hodd, if_neg hodd]
    rfl

theorem sumFrom_eq_words16 : ∀ (l : List Nat) (s : Nat),
    s + (words16 l).sum < 4294967296 → sumFrom l s = s + (words16 l).sum
  | [], s, _ => by simp [sumFrom_nil, words16]
  | [x], s, h => by
    simp only [words16, List.sum_cons, List.sum_nil, Nat.add_zero] at h
    rw [sumFrom_single]
    simp only [words16, List.sum_cons, List.sum_nil, Nat.add_zero]
    omega
  | hi :: lo :: rest, s, h => by
    simp only [words16, List.sum_cons] at h
    rw [sumFrom_pair]
    have hs : ((s + hi * 256 % 4294967296) % 4294967296 + lo) % 4294967296
        = s + hi * 256 + lo := by omega
    rw [hs, sumFrom_eq_words16 rest (s + hi * 256 + lo) (by omega)]
    simp only [words16, List.sum_cons]
    omega

theorem words16_sum_le : ∀ (l : List Nat), (∀ x ∈ l, IsByte x) →
    (words16 l).sum ≤ 65535 * ((l.length + 1) / 2)
  | [], _ => by simp [words16]
  | [x], h => by
    have hx : x < 256 := h x (List.mem_singleton.mpr rfl)
    simp only [words16, List.sum_cons, List.sum_nil, List.length_singleton]
    omega
  | hi :: lo :: rest, h => by
    have hhi : hi < 256 := h hi (List.mem_cons_self _ _)
    have hlo : lo < 256 := h lo (List.mem_cons_of_mem _ (List.mem_cons_self _ _))
    have hrest := words16_sum_le rest
      (fun x hx => h x (List.mem_cons_of_mem _ (List.mem_cons_of_mem _ hx)))
    simp only [words16, List.sum_cons, List.length_cons]
    omega

theorem sumFrom_append_zero : ∀ (l : List Nat) (s : Nat), l.length % 2 = 1 →
    sumFrom (l ++ [0]) s = sumFrom l s
  | [], _, h => by simp at h
  | [x], s, _ => by
    show sumFrom [x, 0] s = sumFrom [x] s
    rw [sumFrom_pair, sumFrom_nil, sumFrom_single]
    omega
  | hi :: lo :: rest, s, h => by
    have hrest : rest.length % 2 = 1 := by
      simp only [List.length_cons] at h
      omega
    show sumFrom (hi :: lo :: (rest ++ [0])) s = sumFrom (hi :: lo :: rest) s
    rw [sumFrom_pair, sumFrom_pair, sumFrom_append_zero rest _ hrest]

theorem words16_append_zero : ∀ (l : List Nat), l.length % 2 = 1 →
    words16 (l ++ [0]) = words16 l.dropLast ++ [l.getD (l.length - 1) 0 * 256 + 0]
  | [], h => by simp at h
  | [x], _ => by simp [words16]
  | hi :: lo :: rest, h => by
    have hrest : rest.length % 2 = 1 := by
      simp only [List.length_cons] at h
      omega
    have hpos : 0 < rest.length := by omega
    have hne : rest ≠ [] := List.ne_nil_of_length_pos hpos
    have hidx : (hi :: lo :: rest).length - 1 = (rest.length - 1) + 1 + 1 := by
      simp only [List.length_cons]
      omega
    have hdrop : (hi :: lo :: rest).dropLast = hi :: lo :: rest.dropLast := by
      cases rest with
      | nil => exact absurd rfl hne
      | cons y ys => rfl
    rw [hidx, List.getD_cons_succ, List.getD_cons_succ, hdrop]
    show words16 (hi :: lo :: (rest ++ [0])) = _
    simp only [words16, List.cons_append]
    rw [words16_append_zero rest hrest]

theorem recvLoop_received_cases (ip4Remote : IP) (timeout : Int) (request : ICMPEchoMessage)
    (start now endTime : Int) (d : List Nat) (src : IP) (rest : List LoopEvent) :
    recvLoop ip4Remote timeout request start (.received now endTime d src :: rest)
        = Run.after [.setReadDeadline (now + timeout), .readFromIP]
            (recvLoop ip4Remote timeout request start rest) ∨
    recvLoop ip4Remote timeout request start (.received now endTime d src :: rest)
        = ⟨[.setReadDeadline (now + timeout), .readFromIP], some ⟨endTime - start, none⟩⟩ ∨
    recvLoop ip4Remote timeout request start (.received now endTime d src :: rest)
        = ⟨[.setReadDeadline (now + timeout), .readFromIP],
            some ⟨0, some (.unreachable src)⟩⟩ := by
  rw [recvLoop]
  cases icmpType d with
  | error err => exact Or.inl rfl
  | ok t =>
    dsimp only
    by_cases h8 : t = 8
    · rw [if_pos h8]
      exact Or.inl rfl
    · rw [if_neg h8]
      by_cases h0 : t = 0 ∧ src = ip4Remote
      · rw [if_pos h0]
        cases UnmarshalEcho d with
        | error err => exact Or.inl rfl
        | ok reply =>
          dsimp only
          cases Pair request reply with
          | error err => exact Or.inl rfl
          | ok u => exact Or.inr (Or.inl rfl)
      · rw [if_neg h0]
        by_cases h3 : t = 3
        · rw [if_pos h3]
          exact Or.inr (Or.inr rfl)
        · rw [if_neg h3]
          exact Or.inl rfl

theorem readDeadlines_append (a b : List ConnCall) :
    readDeadlines (a ++ b) = readDeadlines a ++ readDeadlines b := by
  induction a with
  | nil => rfl
  | cons c cs ih =>
    cases c <;> simp [readDeadlines, ih]

theorem recvLoop_readDeadlines (ip4Remote : IP) (timeout : Int) (request : ICMPEchoMessage)
    (start : Int) : ∀ (events : List LoopEvent) (t : Int),
    t ∈ readDeadlines (recvLoop ip4Remote timeout request start events).calls →
    ∃ ev ∈ events, ∃ now, iterationNow ev = some now ∧ t = now + timeout := by
  intro events
  induction events with
  | nil => intro t h; simp [recvLoop, readDeadlines] at h
  | cons ev rest ih =>
    intro t h
    cases ev with
    | timeoutFired => simp [recvLoop, readDeadlines] at h
    | setReadDeadlineFails now =>
      simp only [recvLoop, readDeadlines, List.mem_singleton] at h
      exact ⟨_, List.mem_cons_self _ _, now, rfl, h⟩
    | readFails now endTime cause =>
      simp only [recvLoop, readDeadlines, List.mem_singleton] at h
      exact ⟨_, List.mem_cons_self _ _, now, rfl, h⟩
    | received now endTime d src =>
      have hhere : ∃ ev ∈ LoopEvent.received now endTime d src :: rest, ∃ now1,
          iterationNow ev = some now1 ∧ now + timeout = now1 + timeout :=
        ⟨_, List.mem_cons_self _ _, now, rfl, rfl⟩
      rcases recvLoop_received_cases ip4Remote timeout request start now endTime d src rest
        with hc | hc | hc
      · rw [hc] at h
        simp only [Run.after, List.cons_append, List.nil_append, readDeadlines,
          List.mem_cons] at h
        rcases h with h | h
        · subst h
          exact hhere
        · obtain ⟨ev, hmem, now1, hnow, ht⟩ := ih t h
          exact ⟨ev, List.mem_cons_of_mem _ hmem, now1, hnow, ht⟩
      · rw [hc] at h
        simp only [readDeadlines, List.mem_singleton] at h
        subst h
        exact hhere
      · rw [hc] at h
        simp only [readDeadlines, List.mem_singleton] at h
        subst h
        exact hhere

theorem recvLoop_timeout (ip4Remote : IP) (timeout : Int) (request : ICMPEchoMessage)
    (start rtt : Int) : ∀ events : List LoopEvent,
    (recvLoop ip4Remote timeout request start events).result = some ⟨rtt, some .timeout⟩ →
    LoopEvent.timeoutFired ∈ events := by
  intro events
  induction events with
  | nil => intro h; simp [recvLoop] at h
  | cons ev rest ih =>
    intro h
    cases ev with
    | timeoutFired => exact List.mem_cons_self _ _
    | setReadDeadlineFails now => simp [recvLoop] at h
    | readFails now endTime cause => simp [recvLoop] at h
    | received now endTime d src =>
      rcases recvLoop_received_cases ip4Remote timeout request start now endTime d src rest
        with hc | hc | hc
      · rw [hc] at h
        exact List.mem_cons_of_mem _ (ih h)
      · rw [hc] at h
        simp at h
      · rw [hc] at h
        simp at h

theorem recvLoop_readFromIP (ip4Remote : IP) (timeout : Int) (request : ICMPEchoMessage)
    (start rtt : Int) (cause : ReadError) : ∀ events : List LoopEvent,
    (recvLoop ip4Remote timeout request start events).result
      = some ⟨rtt, some (.readFromIP cause)⟩ →
    ∃ now endTime, LoopEvent.readFails now endTime cause ∈ events := by
  intro events
  induction events with
  | nil => intro h; simp [recvLoop] at h
  | cons ev rest ih =>
    intro h
    cases ev with
    | timeoutFired => simp [recvLoop] at h
    | setReadDeadlineFails now => simp [recvLoop] at h
    | readFails now endTime cause1 =>
      simp only [recvLoop, Option.some.injEq, DoResult.mk.injEq, DoError.readFromIP.injEq] at h
      obtain ⟨_, hcause⟩ := h
      subst hcause
      exact ⟨now, endTime, List.mem_cons_self _ _⟩
    | received now endTime d src =>
      rcases recvLoop_received_cases ip4Remote timeout request start now endTime d src rest
        with hc | hc | hc
      · rw [hc] at h
        obtain ⟨now1, end1, hmem⟩ := ih h
        exact ⟨now1, end1, List.mem_cons_of_mem _ hmem⟩
      · rw [hc] at h
        simp at h
      · rw [hc] at h
        simp at h

theorem deferredClose_readDeadlines (closeFails : Bool) (r : Run) :
    readDeadlines (deferredClose closeFails r).calls = readDeadlines r.calls := by
  unfold deferredClose
  cases r.result with
  | none => rfl
  | some res =>
    dsimp only
    rw [readDeadlines_append]
    simp [readDeadlines]

theorem deferredClose_result (closeFails : Bool) (r : Run) (res : DoResult)
    (h : (deferredClose closeFails r).result = some res) :
    res.rerr = some .close ∨ r.result = some res := by
  unfold deferredClose at h
  cases hr : r.result with
  | none =>
    rw [hr] at h
    dsimp only at h
    rw [hr] at h
    cases h
  | some res1 =>
    rw [hr] at h
    dsimp only at h
    cases closeFails with
    | true =>
      simp only [if_true, Option.some.injEq] at h
      left
      rw [← h]
    | false =>
      simp only [Bool.false_eq_true, if_false, Option.some.injEq] at h
      right
      rw [h]

theorem Do_readDeadlines (env : DoEnv) (ip4Remote : IP) (timeout : Int)
    (identifier sequenceNumber dataSize : Nat) (t : Int)
    (h : t ∈ readDeadlines (Do env ip4Remote timeout identifier sequenceNumber dataSize).calls) :
    t ∈ readDeadlines (recvLoop ip4Remote timeout
      (NewEchoRequest identifier sequenceNumber (some (List.replicate dataSize 0)))
      env.start env.events).calls := by
  unfold Do at h
  cases hlisten : env.listenFails with
  | true =>
    rw [hlisten] at h
    simp [readDeadlines] at h
  | false =>
    rw [hlisten] at h
    simp only [Bool.false_eq_true, if_false] at h
    rw [deferredClose_readDeadlines] at h
    cases hm : MarshalEcho
        (NewEchoRequest identifier sequenceNumber (some (List.replicate dataSize 0))) with
    | error err =>
      rw [hm] at h
      simp [readDeadlines] at h
    | ok sendData =>
      rw [hm] at h
      dsimp only at h
      cases hw : env.setWriteDeadlineFails with
      | true =>
        rw [hw] at h
        simp [readDeadlines] at h
      | false =>
        rw [hw] at h
        cases hwr : env.writeFails with
        | true =>
          rw [hwr] at h
          simp [readDeadlines] at h
        | false =>
          rw [hwr] at h
          simpa [Run.after, readDeadlines] using h

theorem Do_result_cases (env : DoEnv) (ip4Remote : IP) (timeout : Int)
    (identifier sequenceNumber dataSize : Nat) (res : DoResult)
    (h : (Do env ip4Remote timeout identifier sequenceNumber dataSize).result = some res) :
    res.rerr = some .listenIP ∨ (∃ e, res.rerr = some (.marshalEcho e)) ∨
    res.rerr = some .setWriteDeadline ∨ res.rerr = some .writeToIP ∨
    res.rerr = some .close ∨
    (recvLoop ip4Remote timeout
      (NewEchoRequest identifier sequenceNumber (some (List.replicate dataSize 0)))
      env.start env.events).result = some res := by
  unfold Do at h
  cases hlisten : env.listenFails with
  | true =>
    rw [hlisten] at h
    simp only [if_true, Option.some.injEq] at h
    left
    rw [← h]
  | false =>
    rw [hlisten] at h
    simp only [Bool.false_eq_true, if_false] at h
    rcases deferredClose_result _ _ _ h with hclose | h2
    · exact Or.inr (Or.inr (Or.inr (Or.inr (Or.inl hclose))))
    · cases hm : MarshalEcho
          (NewEchoRequest identifier sequenceNumber (some (List.replicate dataSize 0))) with
      | error err =>
        rw [hm] at h2
        simp only [Option.some.injEq] at h2
        right; left
        exact ⟨err, by rw [← h2]⟩
      | ok sendData =>
        rw [hm] at h2
        dsimp only at h2
        cases hw : env.setWriteDeadlineFails with
        | true =>
          rw [hw] at h2
          simp only [if_true, Option.some.injEq] at h2
          right; right; left
          rw [← h2]
        | false =>
          rw [hw] at h2
          cases hwr : env.writeFails with
          | true =>
            rw [hwr] at h2
            simp only [Bool.false_eq_true, if_false, if_true, Option.some.injEq] at h2
            right; right; right; left
            rw [← h2]
          | false =>
            rw [hwr] at h2
            right; right; right; right; right
            simpa [Run.after] using h2

theorem UnmarshalEcho_data_ne_empty (b : List Nat) (e : ICMPEchoMessage)
    (h : UnmarshalEcho b = .ok e) : e.Data ≠ some [] := by
  unfold UnmarshalEcho at h
  by_cases hl : b.length < icmpHeaderSize
  · rw [if_pos hl] at h
    cases h
  · rw [if_neg hl] at h
    by_cases hc : Checksum b ≠ 0
    · rw [if_pos hc] at h
      cases h
    · rw [if_neg hc] at h
      injection h with h
      subst h
      show (if b.length > icmpHeaderSize then some (b.drop icmpHeaderSize) else none) ≠ some []
      by_cases hgt : b.length > icmpHeaderSize
      · rw [if_pos hgt]
        intro hsome
        injection hsome with hnil
        have hlen : (b.drop icmpHeaderSize).length = 0 := by rw [hnil]; rfl
        rw [List.length_drop] at hlen
        omega
      · rw [if_neg hgt]
        intro hnone
        cases hnone

theorem Do_zero_size_never_succeeds (env : DoEnv) (ip4Remote : IP) (timeout : Int)
    (identifier sequenceNumber : Nat) (rtt : Int) :
    (Do env ip4Remote timeout identifier sequenceNumber 0).result ≠ some ⟨rtt, none⟩ := by
  intro h
  have h2 := Do_success env ip4Remote timeout identifier sequenceNumber 0 rtt h
  obtain ⟨now, endTime, d, reply, _, _, _, _, _, hu, hp⟩ :=
    recvLoop_success ip4Remote timeout _ env.start rtt env.events h2
  obtain ⟨_, _, _, hd⟩ := (Pair_ok_iff _ reply).1 hp
  exact UnmarshalEcho_data_ne_empty d reply hu hd.symm

theorem words16_odd : ∀ (l : List Nat), l.length % 2 = 1 →
    words16 l = words16 l.dropLast ++ [l.getD (l.length - 1) 0 * 256]
  | [], h => by simp at h
  | [x], _ => by simp [words16]
  | hi :: lo :: rest, h => by
    have hrest : rest.length % 2 = 1 := by
      simp only [List.length_cons] at h
      omega
    have hpos : 0 < rest.length := by omega
    have hne : rest ≠ [] := List.ne_nil_of_length_pos hpos
    have hidx : (hi :: lo :: rest).length - 1 = (rest.length - 1) + 1 + 1 := by
      simp only [List.length_cons]
      omega
    have hdrop : (hi :: lo :: rest).dropLast = hi :: lo :: rest.dropLast := by
      cases rest with
      | nil => exact absurd rfl hne
      | cons y ys => rfl
    rw [hidx, List.getD_cons_succ, List.getD_cons_succ, hdrop]
    simp only [words16, List.cons_append]
    rw [words16_odd rest hrest]

/-- Every read deadline `Do` sets is the clock value of its iteration plus the full timeout;
after a discarded datagram the loop sets such a deadline anew. -/
theorem Do_read_deadline_is_now_plus_timeout (env : DoEnv) (r : IP) (timeout : Int)
    (identifier sequenceNumber dataSize : Nat) :
    (∀ t ∈ readDeadlines (Do env r timeout identifier sequenceNumber dataSize).calls,
      ∃ ev ∈ env.events, ∃ now, iterationNow ev = some now ∧ t = now + timeout ∧
        (env.start < now → env.start + timeout < t)) ∧
    (∀ (q : ICMPEchoMessage) (start now endTime : Int) (d : List Nat) (s : IP)
        (rest : List LoopEvent), Discards r timeout q start now endTime d s →
      readDeadlines (recvLoop r timeout q start (.received now endTime d s :: rest)).calls
        = (now + timeout) :: readDeadlines (recvLoop r timeout q start rest).calls) ∧
    (∀ (q : ICMPEchoMessage) (start now endTime : Int) (cause : ReadError)
        (rest : List LoopEvent),
      readDeadlines (recvLoop r timeout q start (.readFails now endTime cause :: rest)).calls
        = [now + timeout]) := by
  refine ⟨?_, ?_, ?_⟩
  · intro t ht
    obtain ⟨ev, hmem, now, hnow, heq⟩ := recvLoop_readDeadlines r timeout _ env.start env.events t
      (Do_readDeadlines env r timeout identifier sequenceNumber dataSize t ht)
    exact ⟨ev, hmem, now, hnow, heq, fun hlt => by omega⟩
  · intro q start now endTime d s rest hdisc
    rw [hdisc rest]
    rfl
  · intro q start now endTime cause rest
    rfl

/-- An instance of `Do_read_deadline_is_now_plus_timeout`: a run in which the own Echo
Request is discarded and the next read fails. -/
theorem Do_read_deadline_is_now_plus_timeout_instance :
    ∃ ev ∈ [LoopEvent.received 100 150 [8, 0, 247, 253, 0, 1, 0, 1] 7,
        LoopEvent.readFails 150 1150 .deadlineExceeded],
      ∃ now, iterationNow ev = some now ∧ (1150 : Int) = now + 1000 ∧
        ((100 : Int) < now → (100 : Int) + 1000 < 1150) :=
  (Do_read_deadline_is_now_plus_timeout ⟨false, 99, false, 100, false,
      [.received 100 150 [8, 0, 247, 253, 0, 1, 0, 1] 7,
        .readFails 150 1150 .deadlineExceeded], false⟩ 7 1000 1 1 0).1 1150 (by decide)

/-! ## The claims -/

/-- C1: the round trip `UnmarshalEcho (MarshalEcho m)` fails on the well-typed request with
identifier 0xFFFF, sequence number 0xF800 and an empty payload: `MarshalEcho` returns
`08 00 ff ff ff ff f8 00` and `UnmarshalEcho` rejects these bytes with a checksum mismatch. -/
theorem roundtrip_rejects_own_encoding :
    WellTyped (NewEchoRequest 65535 63488 (some [])) ∧
    len (NewEchoRequest 65535 63488 (some [])).Data ≤ 65507 ∧
    MarshalEcho (NewEchoRequest 65535 63488 (some [])) = .ok [8, 0, 255, 255, 255, 255, 248, 0] ∧
    UnmarshalEcho [8, 0, 255, 255, 255, 255, 248, 0] = .error (.checksumMismatch 65535) := by
  refine ⟨?_, by decide, rfl, rfl⟩
  simp [WellTyped, NewEchoRequest, IsByte, IsUint16, bytesOf]

/-- C2: on the six bytes `ff ff ff ff 00 01` the single fold of `Checksum` leaves a carry:
`Checksum` returns 0xFFFF where the Internet checksum (carries folded until the sum fits in
16 bits) is 0xFFFE. -/
theorem Checksum_single_fold_not_enough :
    [255, 255, 255, 255, 0, 1].length ≤ 65515 ∧
    (∀ x ∈ [255, 255, 255, 255, 0, 1], IsByte x) ∧
    Checksum [255, 255, 255, 255, 0, 1] = 65535 ∧
    internetChecksum [255, 255, 255, 255, 0, 1] = 65534 := by
  refine ⟨by decide, ?_, by decide, by decide⟩
  simp [IsByte]

/-- C3: on the eight bytes `08 00 00 00 ff ff f8 00` (checksum field zero) `Checksum` returns
0xFFFF, and the checksum of the buffer with 0xFFFF written into bytes 2-3 is 0xFFFF, not
0x0000. -/
theorem Checksum_of_patched_buffer_nonzero :
    Checksum [8, 0, 0, 0, 255, 255, 248, 0] = 65535 ∧
    putUint16 [8, 0, 0, 0, 255, 255, 248, 0] 2 (Checksum [8, 0, 0, 0, 255, 255, 248, 0])
      = [8, 0, 255, 255, 255, 255, 248, 0] ∧
    Checksum (putUint16 [8, 0, 0, 0, 255, 255, 248, 0] 2
      (Checksum [8, 0, 0, 0, 255, 255, 248, 0])) = 65535 := by
  refine ⟨by decide, by decide, by decide⟩

/-- C4: for a payload of at most 65507 bytes `MarshalEcho` returns `8 + n` bytes: type, code,
the checksum big-endian, identifier and sequence number big-endian, then the payload; the
checksum is that of the same buffer with bytes 2-3 zero, and the checksum field of the message
plays no part. -/
theorem MarshalEcho_layout (e : ICMPEchoMessage) (h : len e.Data ≤ 65507) :
    ∃ b, MarshalEcho e = .ok b ∧
      b.length = 8 + len e.Data ∧
      b.getD 0 0 = e.Type_ ∧ b.getD 1 0 = e.Code ∧
      b.getD 4 0 = e.Identifier / 256 % 256 ∧ b.getD 5 0 = e.Identifier % 256 ∧
      b.getD 6 0 = e.SequenceNumber / 256 % 256 ∧ b.getD 7 0 = e.SequenceNumber % 256 ∧
      (IsUint16 e.Identifier → getUint16 b 4 = e.Identifier) ∧
      (IsUint16 e.SequenceNumber → getUint16 b 6 = e.SequenceNumber) ∧
      b.drop 8 = bytesOf e.Data ∧
      (b.set 2 0).set 3 0 = headerBytes e ++ bytesOf e.Data ∧
      b.getD 2 0 = Checksum ((b.set 2 0).set 3 0) / 256 % 256 ∧
      b.getD 3 0 = Checksum ((b.set 2 0).set 3 0) % 256 ∧
      getUint16 b 2 = Checksum ((b.set 2 0).set 3 0) ∧
      ∀ c, MarshalEcho { e with Checksum := c } = .ok b := by
  have hmax : len e.Data ≤ MaxDataSize := h
  refine ⟨_, MarshalEcho_ok e hmax, ?_⟩
  have hz : ((putUint16 (headerBytes e ++ bytesOf e.Data) 2
      (Checksum (headerBytes e ++ bytesOf e.Data))).set 2 0).set 3 0
      = headerBytes e ++ bytesOf e.Data := by
    simp [putUint16, headerBytes]
  have hc : Checksum (headerBytes e ++ bytesOf e.Data) < 65536 := Nat.mod_lt _ (by decide)
  refine ⟨?_, ?_, ?_, ?_, ?_, ?_, ?_, ?_, ?_, ?_, hz, ?_, ?_, ?_, ?_⟩
  · simp [putUint16, headerBytes, len_eq_length]; omega
  · simp [putUint16, headerBytes]
  · simp [putUint16, headerBytes]
  · simp [putUint16, headerBytes]
  · simp [putUint16, headerBytes]
  · simp [putUint16, headerBytes]
  · simp [putUint16, headerBytes]
  · intro hid
    unfold IsUint16 at hid
    simp [putUint16, headerBytes, getUint16]
    omega
  · intro hseq
    unfold IsUint16 at hseq
    simp [putUint16, headerBytes, getUint16]
    omega
  · simp [putUint16, headerBytes]
  · rw [hz]; simp [putUint16, headerBytes]
  · rw [hz]; simp [putUint16, headerBytes]
  · rw [hz]
    generalize Checksum (headerBytes e ++ bytesOf e.Data) = c at hc
    simp [putUint16, headerBytes, getUint16]
    omega
  · intro c
    exact MarshalEcho_ok { e with Checksum := c } hmax

/-- C4, an instance: the layout of the encoding of the request of `TestMarshalEcho` without
payload. -/
theorem MarshalEcho_layout_witness :
    ∃ b, MarshalEcho (NewEchoRequest 1 11 none) = .ok b ∧
      b.length = 8 + len (NewEchoRequest 1 11 none).Data ∧
      b.getD 0 0 = 8 ∧ b.getD 1 0 = 0 ∧
      b.getD 2 0 = Checksum ((b.set 2 0).set 3 0) / 256 % 256 ∧
      b.getD 3 0 = Checksum ((b.set 2 0).set 3 0) % 256 := by
  obtain ⟨b, h1, h2, h3, h4, _, _, _, _, _, _, _, _, h5, h6, _, _⟩ :=
    MarshalEcho_layout (NewEchoRequest 1 11 none) (by decide)
  exact ⟨b, h1, h2, h3, h4, h5, h6⟩

/-- C5: `MarshalEcho` fails exactly when the payload has more than 65507 = 65535 - 20 - 8
bytes; it fails on 65508 bytes and succeeds on 65507. -/
theorem MarshalEcho_fails_iff (e : ICMPEchoMessage) :
    (MarshalEcho e = .error (.payloadTooLarge (len e.Data) 65507) ↔ 65507 < len e.Data) ∧
    ((∃ err, MarshalEcho e = .error err) ↔ 65507 < len e.Data) ∧
    ((∃ b, MarshalEcho e = .ok b) ↔ len e.Data ≤ 65507) ∧
    MaxDataSize = 65535 - 20 - 8 ∧ MaxDataSize = 65507 ∧
    (∃ err, MarshalEcho { e with Data := some (List.replicate 65508 0) } = .error err) ∧
    (∃ b, MarshalEcho { e with Data := some (List.replicate 65507 0) } = .ok b) := by
  have hM : MaxDataSize = 65507 := by decide
  have hfail : ∀ m : ICMPEchoMessage, 65507 < len m.Data →
      MarshalEcho m = .error (.payloadTooLarge (len m.Data) 65507) := by
    intro m hm
    unfold MarshalEcho
    rw [if_pos (by omega), hM]
  have hok : ∀ m : ICMPEchoMessage, len m.Data ≤ 65507 → ∃ b, MarshalEcho m = .ok b :=
    fun m hm => ⟨_, MarshalEcho_ok m (by omega)⟩
  refine ⟨⟨?_, hfail e⟩, ⟨?_, fun hlt => ⟨_, hfail e hlt⟩⟩, ⟨?_, hok e⟩, by decide, hM, ?_, ?_⟩
  · intro herr
    by_contra hle
    obtain ⟨b, hb⟩ := hok e (by omega)
    rw [hb] at herr
    cases herr
  · rintro ⟨err, herr⟩
    by_contra hle
    obtain ⟨b, hb⟩ := hok e (by omega)
    rw [hb] at herr
    cases herr
  · rintro ⟨b, hb⟩
    by_contra hlt
    rw [hfail e (by omega)] at hb
    cases hb
  · refine ⟨_, hfail _ ?_⟩
    show 65507 < (List.replicate 65508 0).length
    rw [List.length_replicate]
    omega
  · refine hok _ ?_
    show (List.replicate 65507 0).length ≤ 65507
    rw [List.length_replicate]

/-- C5, an instance: a request with 65508 zero bytes is not encoded. -/
theorem MarshalEcho_fails_iff_witness :
    ∃ err, MarshalEcho (NewEchoRequest 1 1 (some (List.replicate 65508 0))) = .error err :=
  (MarshalEcho_fails_iff (NewEchoRequest 1 1 (some (List.replicate 65508 0)))).2.1.2
    (by
      show 65507 < (List.replicate 65508 0).length
      rw [List.length_replicate]
      omega)

/-- C6: `UnmarshalEcho` fails on fewer than 8 bytes, fails on 8 or more bytes whose checksum
is not zero, and succeeds otherwise. -/
theorem UnmarshalEcho_succeeds_iff (b : List Nat) :
    (b.length < 8 → UnmarshalEcho b = .error (.tooShort b.length 8)) ∧
    (8 ≤ b.length → Checksum b ≠ 0 →
      UnmarshalEcho b = .error (.checksumMismatch (Checksum b))) ∧
    (8 ≤ b.length → Checksum b = 0 → ∃ e, UnmarshalEcho b = .ok e) ∧
    ((∃ e, UnmarshalEcho b = .ok e) ↔ 8 ≤ b.length ∧ Checksum b = 0) := by
  have h1 : b.length < 8 → UnmarshalEcho b = .error (.tooShort b.length 8) := by
    intro h
    unfold UnmarshalEcho
    rw [if_pos (show b.length < icmpHeaderSize from h)]
    rfl
  have h2 : 8 ≤ b.length → Checksum b ≠ 0 →
      UnmarshalEcho b = .error (.checksumMismatch (Checksum b)) := by
    intro h hc
    unfold UnmarshalEcho
    rw [if_neg (show ¬ b.length < icmpHeaderSize from Nat.not_lt.mpr h), if_pos hc]
  have h3 : 8 ≤ b.length → Checksum b = 0 → ∃ e, UnmarshalEcho b = .ok e := by
    intro h hc
    unfold UnmarshalEcho
    rw [if_neg (show ¬ b.length < icmpHeaderSize from Nat.not_lt.mpr h),
      if_neg (show ¬ Checksum b ≠ 0 from fun hne => hne hc)]
    exact ⟨_, rfl⟩
  refine ⟨h1, h2, h3, ?_, fun h => h3 h.1 h.2⟩
  rintro ⟨e, he⟩
  by_cases hl : b.length < 8
  · rw [h1 hl] at he
    cases he
  · by_cases hc : Checksum b = 0
    · exact ⟨by omega, hc⟩
    · rw [h2 (by omega) hc] at he
      cases he

/-- C6, instances: the 8-byte capture of `TestUnmarshalEcho` is accepted, 7 zero bytes are
too short. -/
theorem UnmarshalEcho_succeeds_iff_witness :
    (∃ e, UnmarshalEcho [8, 0, 247, 243, 0, 1, 0, 11] = .ok e) ∧
    UnmarshalEcho [0, 0, 0, 0, 0, 0, 0] = .error (.tooShort 7 8) :=
  ⟨(UnmarshalEcho_succeeds_iff [8, 0, 247, 243, 0, 1, 0, 11]).2.2.1 (by decide) (by decide),
    (UnmarshalEcho_succeeds_iff [0, 0, 0, 0, 0, 0, 0]).1 (by decide)⟩

/-- C7: a message decoded by `UnmarshalEcho` from a buffer of bytes has type `b[0]`, code
`b[1]`, checksum, identifier and sequence number the big-endian values of `b[2..3]`,
`b[4..5]` and `b[6..7]`, and as payload the bytes `b[8..]` in order. -/
theorem UnmarshalEcho_fields (b : List Nat) (e : ICMPEchoMessage)
    (hb : ∀ x ∈ b, IsByte x) (h : UnmarshalEcho b = .ok e) :
    8 ≤ b.length ∧
    e.Type_ = b.getD 0 0 ∧ e.Code = b.getD 1 0 ∧
    e.Checksum = b.getD 2 0 * 256 + b.getD 3 0 ∧
    e.Identifier = b.getD 4 0 * 256 + b.getD 5 0 ∧
    e.SequenceNumber = b.getD 6 0 * 256 + b.getD 7 0 ∧
    bytesOf e.Data = b.drop 8 ∧ len e.Data = b.length - 8 := by
  have hget : ∀ i, getUint16 b i = b.getD i 0 * 256 + b.getD (i + 1) 0 := by
    intro i
    have h1 := getD_isByte b hb i
    have h2 := getD_isByte b hb (i + 1)
    unfold getUint16
    omega
  unfold UnmarshalEcho at h
  by_cases hl : b.length < icmpHeaderSize
  · rw [if_pos hl] at h
    cases h
  · rw [if_neg hl] at h
    by_cases hc : Checksum b ≠ 0
    · rw [if_pos hc] at h
      cases h
    · rw [if_neg hc] at h
      injection h with h
      subst h
      have hl8 : 8 ≤ b.length := Nat.not_lt.mp hl
      refine ⟨hl8, rfl, rfl, hget 2, hget 4, hget 6, ?_, ?_⟩
      · show bytesOf (if b.length > icmpHeaderSize then some (b.drop icmpHeaderSize) else none)
          = b.drop 8
        by_cases hgt : b.length > icmpHeaderSize
        · rw [if_pos hgt]
          rfl
        · rw [if_neg hgt]
          have : b.length ≤ 8 := Nat.not_lt.mp hgt
          exact (List.drop_eq_nil_of_le this).symm
      · show len (if b.length > icmpHeaderSize then some (b.drop icmpHeaderSize) else none)
          = b.length - 8
        by_cases hgt : b.length > icmpHeaderSize
        · rw [if_pos hgt]
          exact List.length_drop 8 b
        · rw [if_neg hgt]
          have : b.length ≤ 8 := Nat.not_lt.mp hgt
          show 0 = b.length - 8
          omega

/-- C7, an instance: the fields decoded from the 8-byte capture of `TestUnmarshalEcho`. -/
theorem UnmarshalEcho_fields_witness :
    UnmarshalEcho [8, 0, 247, 243, 0, 1, 0, 11] = .ok ⟨8, 0, 63475, 1, 11, none⟩ ∧
    (⟨8, 0, 63475, 1, 11, none⟩ : ICMPEchoMessage).Checksum
      = [8, 0, 247, 243, 0, 1, 0, 11].getD 2 0 * 256 + [8, 0, 247, 243, 0, 1, 0, 11].getD 3 0 :=
  ⟨rfl, (UnmarshalEcho_fields [8, 0, 247, 243, 0, 1, 0, 11] ⟨8, 0, 63475, 1, 11, none⟩
    (by simp [IsByte]) rfl).2.2.2.1⟩

/-- C8: `Pair` fails on a request with an empty, non-nil payload and a reply with a nil
payload, though code, identifier, sequence number and payload bytes of the two are equal. -/
theorem Pair_tells_nil_from_empty :
    (NewEchoRequest 1 1 (some [])).Code = (⟨0, 0, 65533, 1, 1, none⟩ : ICMPEchoMessage).Code ∧
    (NewEchoRequest 1 1 (some [])).Identifier
      = (⟨0, 0, 65533, 1, 1, none⟩ : ICMPEchoMessage).Identifier ∧
    (NewEchoRequest 1 1 (some [])).SequenceNumber
      = (⟨0, 0, 65533, 1, 1, none⟩ : ICMPEchoMessage).SequenceNumber ∧
    bytesOf (NewEchoRequest 1 1 (some [])).Data
      = bytesOf (⟨0, 0, 65533, 1, 1, none⟩ : ICMPEchoMessage).Data ∧
    Pair (NewEchoRequest 1 1 (some [])) ⟨0, 0, 65533, 1, 1, none⟩ = .error .dataMismatch :=
  ⟨rfl, rfl, rfl, rfl, rfl⟩

/-- C10: the checksum of the empty buffer is 0xFFFF, and so is that of the one byte 0x00. -/
theorem Checksum_empty_and_zero_byte :
    Checksum [] = 65535 ∧ Checksum [0] = 65535 := by
  decide

/-- C9: what the receive loop of `Do` decides on a received datagram `d` from `s`, for the
destination `r` and the request `q`: discard when `d` has fewer than 8 bytes or type 8;
success on a type 0 from `r` that `UnmarshalEcho` decodes and `Pair` accepts; discard on a
type 0 from `r` that fails either; Destination Unreachable carrying `s` on type 3; discard
on any other type and on type 0 from another source. So `Do` returns a nil error only after
a checksum-valid type-0 datagram from `r` with the code, identifier, sequence number and
payload of the request. -/
theorem Do_datagram_decision (r : IP) (timeout : Int) (q : ICMPEchoMessage)
    (start now endTime : Int) (d : List Nat) (s : IP) :
    (d.length < 8 → Discards r timeout q start now endTime d s) ∧
    (8 ≤ d.length → d.getD 0 0 = 8 → Discards r timeout q start now endTime d s) ∧
    (8 ≤ d.length → d.getD 0 0 = 0 → s = r → ∀ reply, UnmarshalEcho d = .ok reply →
      Pair q reply = .ok () → Returns r timeout q start now endTime d s ⟨endTime - start, none⟩) ∧
    (8 ≤ d.length → d.getD 0 0 = 0 → s = r → (∃ err, UnmarshalEcho d = .error err) →
      Discards r timeout q start now endTime d s) ∧
    (8 ≤ d.length → d.getD 0 0 = 0 → s = r → ∀ reply, UnmarshalEcho d = .ok reply →
      (∃ err, Pair q reply = .error err) → Discards r timeout q start now endTime d s) ∧
    (8 ≤ d.length → d.getD 0 0 = 3 →
      Returns r timeout q start now endTime d s ⟨0, some (.unreachable s)⟩) ∧
    (8 ≤ d.length → d.getD 0 0 ≠ 0 → d.getD 0 0 ≠ 3 →
      Discards r timeout q start now endTime d s) ∧
    (8 ≤ d.length → d.getD 0 0 = 0 → s ≠ r → Discards r timeout q start now endTime d s) ∧
    (∀ (events : List LoopEvent) (rtt : Int),
      (recvLoop r timeout q start events).result = some ⟨rtt, none⟩ →
      ∃ now1 end1 d1 reply, LoopEvent.received now1 end1 d1 r ∈ events ∧
        8 ≤ d1.length ∧ d1.getD 0 0 = 0 ∧ Checksum d1 = 0 ∧ UnmarshalEcho d1 = .ok reply ∧
        reply.Code = q.Code ∧ reply.Identifier = q.Identifier ∧
        reply.SequenceNumber = q.SequenceNumber ∧ reply.Data = q.Data) ∧
    (∀ (env : DoEnv) (identifier sequenceNumber dataSize : Nat) (rtt : Int),
      (Do env r timeout identifier sequenceNumber dataSize).result = some ⟨rtt, none⟩ →
      ∃ now1 end1 d1 reply, LoopEvent.received now1 end1 d1 r ∈ env.events ∧
        8 ≤ d1.length ∧ d1.getD 0 0 = 0 ∧ Checksum d1 = 0 ∧ UnmarshalEcho d1 = .ok reply ∧
        reply.Code = 0 ∧ reply.Identifier = identifier ∧
        reply.SequenceNumber = sequenceNumber ∧
        reply.Data = some (List.replicate dataSize 0)) := by
  have hloop : ∀ (q1 : ICMPEchoMessage) (st : Int) (events : List LoopEvent) (rtt : Int),
      (recvLoop r timeout q1 st events).result = some ⟨rtt, none⟩ →
      ∃ now1 end1 d1 reply, LoopEvent.received now1 end1 d1 r ∈ events ∧
        8 ≤ d1.length ∧ d1.getD 0 0 = 0 ∧ Checksum d1 = 0 ∧ UnmarshalEcho d1 = .ok reply ∧
        reply.Code = q1.Code ∧ reply.Identifier = q1.Identifier ∧
        reply.SequenceNumber = q1.SequenceNumber ∧ reply.Data = q1.Data := by
    intro q1 st events rtt h
    obtain ⟨now1, end1, d1, reply, hmem, _, hlen, h0, hsum, hu, hp⟩ :=
      recvLoop_success r timeout q1 st rtt events h
    obtain ⟨hc, hi, hs, hd⟩ := (Pair_ok_iff q1 reply).1 hp
    exact ⟨now1, end1, d1, reply, hmem, hlen, h0, hsum, hu, hc.symm, hi.symm, hs.symm, hd.symm⟩
  refine ⟨?_, ?_, ?_, ?_, ?_, ?_, ?_, ?_, hloop q start, ?_⟩
  · intro hl rest
    rw [recvLoop, icmpType_error d hl]
  · intro hl h8 rest
    rw [recvLoop, icmpType_ok d hl]
    dsimp only
    rw [if_pos h8]
  · intro hl h0 hs reply hu hp rest
    rw [recvLoop, icmpType_ok d hl]
    dsimp only
    rw [if_neg (by omega), if_pos ⟨h0, hs⟩, hu]
    dsimp only
    rw [hp]
    rfl
  · rintro hl h0 hs ⟨err, hu⟩ rest
    rw [recvLoop, icmpType_ok d hl]
    dsimp only
    rw [if_neg (by omega), if_pos ⟨h0, hs⟩, hu]
  · rintro hl h0 hs reply hu ⟨err, hp⟩ rest
    rw [recvLoop, icmpType_ok d hl]
    dsimp only
    rw [if_neg (by omega), if_pos ⟨h0, hs⟩, hu]
    dsimp only
    rw [hp]
  · intro hl h3 rest
    rw [recvLoop, icmpType_ok d hl]
    dsimp only
    rw [if_neg (by omega), if_neg (by omega), if_pos h3]
    rfl
  · intro hl h0 h3 rest
    rw [recvLoop, icmpType_ok d hl]
    dsimp only
    by_cases h8 : d.getD 0 0 = 8
    · rw [if_pos h8]
    · rw [if_neg h8, if_neg (fun h => h0 h.1), if_neg h3]
  · intro hl h0 hs rest
    rw [recvLoop, icmpType_ok d hl]
    dsimp only
    rw [if_neg (by omega), if_neg (fun h => hs h.2), if_neg (by omega)]
  · intro env identifier sequenceNumber dataSize rtt h
    exact hloop _ _ _ _ (Do_success env r timeout identifier sequenceNumber dataSize rtt h)

/-- C9, instances: a checksum-valid Echo Reply from the destination that pairs with the
request ends the loop with success, three bytes are discarded, and a successful `Do` has
received such a reply. -/
theorem Do_datagram_decision_witness :
    Returns 7 1000 (NewEchoRequest 1 1 (some [0])) 100 101 105 [0, 0, 255, 253, 0, 1, 0, 1, 0] 7
      ⟨105 - 100, none⟩ ∧
    Discards 7 1000 (NewEchoRequest 1 1 (some [0])) 100 101 105 [0, 0, 0] 7 ∧
    ∃ now1 end1 d1 reply,
      LoopEvent.received now1 end1 d1 7 ∈
        [LoopEvent.received 101 103 [8, 0, 247, 253, 0, 1, 0, 1, 0] 7,
          LoopEvent.received 104 105 [0, 0, 255, 253, 0, 1, 0, 1, 0] 7] ∧
      8 ≤ List.length d1 ∧ List.getD d1 0 0 = 0 ∧ Checksum d1 = 0 ∧
      UnmarshalEcho d1 = .ok reply ∧ reply.Code = 0 ∧ reply.Identifier = 1 ∧
      reply.SequenceNumber = 1 ∧ reply.Data = some (List.replicate 1 0) :=
  ⟨(Do_datagram_decision 7 1000 (NewEchoRequest 1 1 (some [0])) 100 101 105
      [0, 0, 255, 253, 0, 1, 0, 1, 0] 7).2.2.1 (by decide) (by decide) rfl
      ⟨0, 0, 65533, 1, 1, some [0]⟩ rfl rfl,
    (Do_datagram_decision 7 1000 (NewEchoRequest 1 1 (some [0])) 100 101 105
      [0, 0, 0] 7).1 (by decide),
    (Do_datagram_decision 7 1000 (NewEchoRequest 1 1 (some [0])) 100 101 105
      [0, 0, 0] 7).2.2.2.2.2.2.2.2.2
      ⟨false, 99, false, 100, false,
        [LoopEvent.received 101 103 [8, 0, 247, 253, 0, 1, 0, 1, 0] 7,
          LoopEvent.received 104 105 [0, 0, 255, 253, 0, 1, 0, 1, 0] 7], false⟩
      1 1 1 5 (by decide)⟩

/-- C11: for a buffer of odd length `Checksum b = Checksum (b ++ [0x00])`, and for such a
buffer of at most 65535 bytes both are the complement of the once-folded sum of the words of
the bytes before the last plus the last byte times 256: the final byte is the high byte of a
last word whose low byte is zero, not a low byte. -/
theorem Checksum_odd_pads_zero (b : List Nat) (hodd : b.length % 2 = 1) :
    Checksum b = Checksum (b ++ [0]) ∧
    ((∀ x ∈ b, IsByte x) → b.length ≤ 65535 →
      Checksum b
        = (4294967295 -
            (((words16 b.dropLast).sum + b.getD (b.length - 1) 0 * 256) % 65536 +
              ((words16 b.dropLast).sum + b.getD (b.length - 1) 0 * 256) / 65536)) % 65536 ∧
      Checksum (b ++ [0])
        = (4294967295 -
            (((words16 b.dropLast).sum + b.getD (b.length - 1) 0 * 256) % 65536 +
              ((words16 b.dropLast).sum + b.getD (b.length - 1) 0 * 256) / 65536)) % 65536) ∧
    (∀ x, IsByte x → Checksum [x] = 65535 - x * 256 ∧ Checksum [x, 0] = 65535 - x * 256) ∧
    words16 (b ++ [0]) = words16 (b.dropLast) ++ [b.getD (b.length - 1) 0 * 256 + 0] ∧
    ((∀ x ∈ b, IsByte x) → b.length ≤ 65535 → sumFrom b 0 = (words16 b).sum) := by
  have hpad : Checksum b = Checksum (b ++ [0]) := by
    rw [Checksum_eq_sumFrom, Checksum_eq_sumFrom, sumFrom_append_zero b 0 hodd]
  have hsum : (∀ x ∈ b, IsByte x) → b.length ≤ 65535 → sumFrom b 0 = (words16 b).sum := by
    intro hb hlen
    have hle := words16_sum_le b hb
    have hbound : 65535 * ((b.length + 1) / 2) ≤ 65535 * 32768 :=
      Nat.mul_le_mul_left _ (by omega)
    have h := sumFrom_eq_words16 b 0 (by omega)
    omega
  have hform : (∀ x ∈ b, IsByte x) → b.length ≤ 65535 →
      Checksum b
        = (4294967295 -
            (((words16 b.dropLast).sum + b.getD (b.length - 1) 0 * 256) % 65536 +
              ((words16 b.dropLast).sum + b.getD (b.length - 1) 0 * 256) / 65536)) % 65536 := by
    intro hb hlen
    have hle := words16_sum_le b hb
    have hbound : 65535 * ((b.length + 1) / 2) ≤ 65535 * 32768 :=
      Nat.mul_le_mul_left _ (by omega)
    have hw : (words16 b).sum
        = (words16 b.dropLast).sum + b.getD (b.length - 1) 0 * 256 := by
      conv_lhs => rw [words16_odd b hodd]
      simp [List.sum_append]
    rw [Checksum_eq_sumFrom, hsum hb hlen]
    rw [hw] at hle
    rw [hw]
    generalize (words16 b.dropLast).sum + b.getD (b.length - 1) 0 * 256 = S at hle
    omega
  refine ⟨hpad, ?_, ?_, words16_append_zero b hodd, hsum⟩
  · intro hb hlen
    exact ⟨hform hb hlen, by rw [← hpad]; exact hform hb hlen⟩
  · intro x hx
    unfold IsByte at hx
    have e1 : (0 + x * 256 % 4294967296) % 4294967296 = x * 256 := by omega
    have e2 : (x * 256 + 0) % 4294967296 = x * 256 := by omega
    have e3 : x * 256 % 65536 = x * 256 := by omega
    have e4 : x * 256 / 65536 = 0 := by omega
    have e5 : (x * 256 + 0) % 4294967296 = x * 256 := by omega
    have h1 : Checksum [x] = 65535 - x * 256 := by
      rw [Checksum_eq_sumFrom, sumFrom_single, e1, e3, e4, e5]
      omega
    have h2 : Checksum [x, 0] = 65535 - x * 256 := by
      rw [Checksum_eq_sumFrom, sumFrom_pair, sumFrom_nil, e1, e2, e3, e4, e5]
      omega
    exact ⟨h1, h2⟩

/-- C11, an instance: the three bytes `01 02 03` and the four bytes `01 02 03 00` have the
same checksum, the complement of `0x0102 + 0x0300`. -/
theorem Checksum_odd_pads_zero_witness :
    Checksum [1, 2, 3] = Checksum ([1, 2, 3] ++ [0]) ∧
    Checksum [1, 2, 3]
      = (4294967295 -
          (((words16 [1, 2]).sum + 3 * 256) % 65536 +
            ((words16 [1, 2]).sum + 3 * 256) / 65536)) % 65536 ∧
    Checksum [1, 2, 3] = 65535 - (258 + 768) :=
  ⟨(Checksum_odd_pads_zero [1, 2, 3] (by decide)).1,
    ((Checksum_odd_pads_zero [1, 2, 3] (by decide)).2.1 (by simp [IsByte]) (by decide)).1,
    by decide⟩

/-- C12: `MarshalEcho` returns the reference captures of `TestMarshalEcho` for the request
with type 8, code 0, identifier 1, sequence number 11: checksum bytes `4d 50` with the
32-byte payload, `f7 f3` without payload (nil, or empty). -/
theorem MarshalEcho_reference_captures :
    MarshalEcho ⟨8, 0, 0, 1, 11, some
      [0x61, 0x62, 0x63, 0x64, 0x65, 0x66, 0x67, 0x68, 0x69, 0x6a,
        0x6b, 0x6c, 0x6d, 0x6e, 0x6f, 0x70, 0x71, 0x72, 0x73, 0x74,
        0x75, 0x76, 0x77, 0x61, 0x62, 0x63, 0x64, 0x65, 0x66, 0x67,
        0x68, 0x69]⟩
      = .ok
        [0x08, 0x00, 0x4d, 0x50, 0x00, 0x01, 0x00, 0x0b, 0x61, 0x62, 0x63, 0x64, 0x65, 0x66,
          0x67, 0x68, 0x69, 0x6a, 0x6b, 0x6c, 0x6d, 0x6e, 0x6f, 0x70, 0x71, 0x72, 0x73, 0x74,
          0x75, 0x76, 0x77, 0x61, 0x62, 0x63, 0x64, 0x65, 0x66, 0x67, 0x68, 0x69] ∧
    MarshalEcho ⟨8, 0, 0, 1, 11, none⟩
      = .ok [0x08, 0x00, 0xf7, 0xf3, 0x00, 0x01, 0x00, 0x0b] ∧
    MarshalEcho ⟨8, 0, 0, 1, 11, some []⟩
      = .ok [0x08, 0x00, 0xf7, 0xf3, 0x00, 0x01, 0x00, 0x0b] :=
  ⟨rfl, rfl, rfl⟩

/-- C13, as stated, fails: the checksum-valid 8 bytes `08 00 f7 f3 00 01 00 0b` decode to a
message whose payload is the nil slice, not an empty non-nil one. -/
theorem UnmarshalEcho_eight_bytes_not_empty_slice :
    [8, 0, 247, 243, 0, 1, 0, 11].length = 8 ∧ Checksum [8, 0, 247, 243, 0, 1, 0, 11] = 0 ∧
    UnmarshalEcho [8, 0, 247, 243, 0, 1, 0, 11] = .ok ⟨8, 0, 63475, 1, 11, none⟩ ∧
    (⟨8, 0, 63475, 1, 11, none⟩ : ICMPEchoMessage).Data ≠ some [] := by
  refine ⟨rfl, by decide, rfl, ?_⟩
  intro h
  cases h

/-- C13, amended: for every checksum-valid buffer of exactly 8 bytes `UnmarshalEcho` returns
a message whose payload is the nil slice, of length 0. -/
theorem UnmarshalEcho_eight_bytes_nil (b : List Nat) (hlen : b.length = 8)
    (hsum : Checksum b = 0) :
    ∃ e, UnmarshalEcho b = .ok e ∧ e.Data = none ∧ len e.Data = 0 ∧ bytesOf e.Data = [] := by
  unfold UnmarshalEcho
  rw [if_neg (show ¬ b.length < icmpHeaderSize by rw [hlen]; decide),
    if_neg (show ¬ Checksum b ≠ 0 from fun hne => hne hsum)]
  have hgt : ¬ b.length > icmpHeaderSize := by rw [hlen]; decide
  refine ⟨_, rfl, ?_, ?_, ?_⟩
  · show (if b.length > icmpHeaderSize then some (b.drop icmpHeaderSize) else none) = none
    rw [if_neg hgt]
  · show len (if b.length > icmpHeaderSize then some (b.drop icmpHeaderSize) else none) = 0
    rw [if_neg hgt]
    rfl
  · show bytesOf (if b.length > icmpHeaderSize then some (b.drop icmpHeaderSize) else none)
      = []
    rw [if_neg hgt]
    rfl

/-- C13, amended, an instance: the 8-byte Echo Reply `00 00 ff fd 00 01 00 01`. -/
theorem UnmarshalEcho_eight_bytes_nil_witness :
    ∃ e, UnmarshalEcho [0, 0, 255, 253, 0, 1, 0, 1] = .ok e ∧ e.Data = none ∧
      len e.Data = 0 ∧ bytesOf e.Data = [] :=
  UnmarshalEcho_eight_bytes_nil [0, 0, 255, 253, 0, 1, 0, 1] rfl (by decide)

/-- C14: `NewEchoRequest` returns a message with type 8, code 0, checksum 0 and the given
identifier, sequence number and payload, whatever the payload. -/
theorem NewEchoRequest_fields (identifier sequenceNumber : Nat) (data : Option (List Nat)) :
    (NewEchoRequest identifier sequenceNumber data).Type_ = 8 ∧
    (NewEchoRequest identifier sequenceNumber data).Code = 0 ∧
    (NewEchoRequest identifier sequenceNumber data).Checksum = 0 ∧
    (NewEchoRequest identifier sequenceNumber data).Identifier = identifier ∧
    (NewEchoRequest identifier sequenceNumber data).SequenceNumber = sequenceNumber ∧
    (NewEchoRequest identifier sequenceNumber data).Data = data ∧
    NewEchoRequest identifier sequenceNumber data
      = ⟨8, 0, 0, identifier, sequenceNumber, data⟩ :=
  ⟨rfl, rfl, rfl, rfl, rfl, rfl, rfl⟩

/-- C15: with send timestamp 100 and timeout 1000, the own Echo Request is read and discarded
at clock 150; the next read is armed with the deadline 150 + 1000 = 1150, later than the
overall deadline 100 + 1000 = 1100, and `Do` returns only when that read ends, at 1150. -/
theorem Do_read_deadline_after_overall_deadline :
    readDeadlines (Do ⟨false, 99, false, 100, false,
        [.received 100 150 [8, 0, 247, 253, 0, 1, 0, 1] 7,
          .readFails 150 1150 .deadlineExceeded], false⟩ 7 1000 1 1 0).calls
      = [1100, 1150] ∧
    ¬ (∀ t ∈ readDeadlines (Do ⟨false, 99, false, 100, false,
        [.received 100 150 [8, 0, 247, 253, 0, 1, 0, 1] 7,
          .readFails 150 1150 .deadlineExceeded], false⟩ 7 1000 1 1 0).calls,
        t ≤ 100 + 1000) ∧
    Do ⟨false, 99, false, 100, false,
        [.received 100 150 [8, 0, 247, 253, 0, 1, 0, 1] 7,
          .readFails 150 1150 .deadlineExceeded], false⟩ 7 1000 1 1 0
      = ⟨[.setWriteDeadline 1099, .writeToIP [8, 0, 247, 253, 0, 1, 0, 1] 7,
            .setReadDeadline 1100, .readFromIP, .setReadDeadline 1150, .readFromIP, .close],
          some ⟨0, some (.readFromIP .deadlineExceeded)⟩⟩ := by
  have hcalls : readDeadlines (Do ⟨false, 99, false, 100, false,
        [.received 100 150 [8, 0, 247, 253, 0, 1, 0, 1] 7,
          .readFails 150 1150 .deadlineExceeded], false⟩ 7 1000 1 1 0).calls
      = [1100, 1150] := by decide
  refine ⟨hcalls, ?_, by decide⟩
  rw [hcalls]
  intro h
  have := h 1150 (by simp)
  omega

/-- C16, as stated, fails: a first read that ends with a deadline-exceeded error makes `Do`
return the `ReadFromIP` error, not the timeout error. -/
theorem Do_read_deadline_exceeded_is_read_error :
    (Do ⟨false, 99, false, 100, false, [.readFails 100 1100 .deadlineExceeded], false⟩
        7 1000 1 1 0).result = some ⟨0, some (.readFromIP .deadlineExceeded)⟩ ∧
    (Do ⟨false, 99, false, 100, false, [.readFails 100 1100 .deadlineExceeded], false⟩
        7 1000 1 1 0).result ≠ some ⟨0, some .timeout⟩ := by
  decide

/-- C16, amended: `Do` returns the timeout error only when the timeout channel is found
fired at the top of an iteration; a read that fails, for the deadline or for any other
reason, makes it return the `ReadFromIP` error carrying that reason. -/
theorem Do_timeout_only_from_channel (env : DoEnv) (r : IP) (timeout : Int)
    (identifier sequenceNumber dataSize : Nat) (rtt : Int) :
    ((Do env r timeout identifier sequenceNumber dataSize).result
        = some ⟨rtt, some .timeout⟩ → LoopEvent.timeoutFired ∈ env.events) ∧
    (∀ cause, (Do env r timeout identifier sequenceNumber dataSize).result
        = some ⟨rtt, some (.readFromIP cause)⟩ →
      ∃ now endTime, LoopEvent.readFails now endTime cause ∈ env.events) ∧
    (∀ (q : ICMPEchoMessage) (start now endTime : Int) (cause : ReadError)
        (rest : List LoopEvent),
      (recvLoop r timeout q start (.readFails now endTime cause :: rest)).result
        = some ⟨0, some (.readFromIP cause)⟩) ∧
    (∀ (q : ICMPEchoMessage) (start : Int) (rest : List LoopEvent),
      (recvLoop r timeout q start (.timeoutFired :: rest)).result
        = some ⟨0, some .timeout⟩) := by
  refine ⟨?_, ?_, ?_, ?_⟩
  · intro h
    rcases Do_result_cases env r timeout identifier sequenceNumber dataSize _ h
      with h1 | ⟨e, h1⟩ | h1 | h1 | h1 | h1
    · cases h1
    · cases h1
    · cases h1
    · cases h1
    · cases h1
    · exact recvLoop_timeout r timeout _ env.start rtt env.events h1
  · intro cause h
    rcases Do_result_cases env r timeout identifier sequenceNumber dataSize _ h
      with h1 | ⟨e, h1⟩ | h1 | h1 | h1 | h1
    · cases h1
    · cases h1
    · cases h1
    · cases h1
    · cases h1
    · exact recvLoop_readFromIP r timeout _ env.start rtt cause env.events h1
  · intro q start now endTime cause rest
    rfl
  · intro q start rest
    rfl

/-- C16, amended, an instance: a run that ends with the timeout error after a discarded
datagram met the fired timeout channel. -/
theorem Do_timeout_only_from_channel_witness :
    LoopEvent.timeoutFired ∈
      [LoopEvent.received 100 150 [8, 0, 247, 253, 0, 1, 0, 1] 7, LoopEvent.timeoutFired] :=
  (Do_timeout_only_from_channel ⟨false, 99, false, 100, false,
      [.received 100 150 [8, 0, 247, 253, 0, 1, 0, 1] 7, .timeoutFired], false⟩
    7 1000 1 1 0 0).1 (by decide)

/-- C17: called with identifier 0xFFFF, sequence number 0xF800 and payload size 0, `Do`
transmits `08 00 ff ff ff ff f8 00`; the checksum of these bytes is 0xFFFF, not 0x0000, and
`UnmarshalEcho` rejects them (the Internet checksum of the zeroed buffer is 0xFFFE). -/
theorem Do_transmits_invalid_checksum :
    (Do ⟨false, 99, false, 100, false, [], false⟩ 7 1000 65535 63488 0).calls
      = [.setWriteDeadline 1099, .writeToIP [8, 0, 255, 255, 255, 255, 248, 0] 7] ∧
    MarshalEcho (NewEchoRequest 65535 63488 (some (List.replicate 0 0)))
      = .ok [8, 0, 255, 255, 255, 255, 248, 0] ∧
    Checksum [8, 0, 255, 255, 255, 255, 248, 0] = 65535 ∧
    UnmarshalEcho [8, 0, 255, 255, 255, 255, 248, 0] = .error (.checksumMismatch 65535) ∧
    internetChecksum [8, 0, 0, 0, 255, 255, 248, 0] = 65534 := by
  refine ⟨by decide, rfl, by decide, rfl, by decide⟩

/-- C18: called with payload size 0, identifier 1 and sequence number 1, `Do` builds a request
with an empty non-nil payload; the checksum-valid 8-byte Echo Reply `00 00 ff fd 00 01 00 01`
from the destination decodes to a message with a nil payload, `Pair` rejects it, the reply
is discarded and `Do` ends with the timeout error. -/
theorem Do_zero_payload_reply_discarded :
    Checksum [0, 0, 255, 253, 0, 1, 0, 1] = 0 ∧
    UnmarshalEcho [0, 0, 255, 253, 0, 1, 0, 1] = .ok ⟨0, 0, 65533, 1, 1, none⟩ ∧
    Pair (NewEchoRequest 1 1 (some (List.replicate 0 0))) ⟨0, 0, 65533, 1, 1, none⟩
      = .error .dataMismatch ∧
    (Do ⟨false, 99, false, 100, false,
        [.received 100 105 [0, 0, 255, 253, 0, 1, 0, 1] 7, .timeoutFired], false⟩
      7 1000 1 1 0).result = some ⟨0, some .timeout⟩ := by
  refine ⟨by decide, rfl, rfl, by decide⟩

/-- C19: for a buffer of at most 65535 bytes `Checksum b = 0x0000` exactly when the fully
folded sum of its big-endian 16-bit words is 0xFFFF, so `UnmarshalEcho` accepts exactly the
buffers of at least 8 bytes that pass the standard verification. -/
theorem Checksum_zero_iff_folded_sum (b : List Nat) (hb : ∀ x ∈ b, IsByte x)
    (hlen : b.length ≤ 65535) :
    (Checksum b = 0 ↔ foldCarries (words16 b).sum = 65535) ∧
    ((∃ e, UnmarshalEcho b = .ok e) ↔
      8 ≤ b.length ∧ foldCarries (words16 b).sum = 65535) := by
  have hle := words16_sum_le b hb
  have hbound : 65535 * ((b.length + 1) / 2) ≤ 65535 * 32768 :=
    Nat.mul_le_mul_left _ (by omega)
  have hsum : sumFrom b 0 = (words16 b).sum := by
    have h := sumFrom_eq_words16 b 0 (by omega)
    omega
  have hiff : Checksum b = 0 ↔ foldCarries (words16 b).sum = 65535 := by
    rw [Checksum_eq_sumFrom, hsum]
    generalize (words16 b).sum = S at hle
    have hS : S ≤ 2147450880 := by omega
    rw [foldCarries_unfold S, foldCarries_unfold (S % 65536 + S / 65536),
      foldCarries_unfold ((S % 65536 + S / 65536) % 65536 + (S % 65536 + S / 65536) / 65536)]
    have h3 : (S % 65536 + S / 65536) % 65536 + (S % 65536 + S / 65536) / 65536 < 65536 := by
      omega
    rw [if_pos h3]
    by_cases h1 : S < 65536
    · rw [if_pos h1]
      omega
    · rw [if_neg h1]
      by_cases h2 : S % 65536 + S / 65536 < 65536
      · rw [if_pos h2]
        omega
      · rw [if_neg h2]
        omega
  refine ⟨hiff, ?_⟩
  rw [UnmarshalEcho_accepts_iff, hiff]

/-- C19, an instance: the 8-byte capture `08 00 f7 f3 00 01 00 0b` has checksum zero and a
folded sum of 0xFFFF. -/
theorem Checksum_zero_iff_folded_sum_witness :
    foldCarries (words16 [8, 0, 247, 243, 0, 1, 0, 11]).sum = 65535 :=
  (Checksum_zero_iff_folded_sum [8, 0, 247, 243, 0, 1, 0, 11] (by simp [IsByte])
    (by decide)).1.1 (by decide)

end Ping
